import Mathlib

/-!
Verification development for the flask_kbpc declarative-model layer
(`flask_kbpc/db/flaskalchemy/database.py`).

The Python module is shallowly embedded below:
  * field values are modelled by `Value` (a datetime carries its rendered
    string form, since the only operation the code performs on it is `str`);
  * Python exceptions are modelled by `PyErr`; fallible code returns
    `Except PyErr`;
  * a model class is an `EntityType` (table column names, relationship
    names, and the class attribute dictionary of instrumented attributes);
  * a model instance is an `Entity`: its type, its in-memory instance
    dictionary (`__dict__`, a column may be absent), and the resolved
    values of its relationship attributes (`RelVal.fail` models a
    relationship access that raises, e.g. an unloadable lazy reference);
  * the shared database session is modelled by the trace of operations
    performed on it (`SessionOp`) plus the logger output, collected in a
    state record `St`; the outcome of the underlying `commit()` call is an
    input of the model (`CommitOutcome`), indexed by how many commits have
    been attempted so far.
-/

/-- A Python scalar value stored on a model instance.  `vDatetime s` is a
datetime object whose `str` rendering is `s`. -/
inductive Value where
  | vInt : Int → Value
  | vStr : String → Value
  | vBool : Bool → Value
  | vDatetime : String → Value
  | vNone : Value
deriving DecidableEq

/-- Python exceptions raised by the embedded code. -/
inductive PyErr where
  | keyError
  | attributeError
  | typeError
  | valueError : String → PyErr
  | integrityError : String → PyErr
  | otherError : String → PyErr
deriving DecidableEq

/-- An `InstrumentedAttribute`: the typed column handle placed on the model
class by the mapping engine.  It exposes `.name` (used by `normalise` and
`check_inputs`) and `.key` (used by `getkey`). -/
structure InstrAttr where
  name : String
  key : String
deriving DecidableEq

/-- A field reference as passed by callers: either a plain string name or
an `InstrumentedAttribute` handle. -/
inductive FieldRef where
  | str : String → FieldRef
  | attr : InstrAttr → FieldRef
deriving DecidableEq

/-- The class-level data of a declarative model type:
`columns` models `__table__.columns.keys()` / `__mapper__.columns.keys()`
(the mapped columns, which for these models coincide), `relationships`
models `__mapper__.relationships.keys()`, `attrs` models the class's own
`__dict__` entries for instrumented attributes, and `baseAttrs` the
attributes found only on base classes (visible to `getattr` but not in
`cls.__dict__`). -/
structure EntityType where
  tyname : String
  columns : List String
  relationships : List String
  attrs : List (String × InstrAttr)
  baseAttrs : List (String × InstrAttr)
deriving DecidableEq

mutual
/-- A model instance: its type, its instance `__dict__` restricted to the
column attributes currently present in memory, and the resolved values of
its relationship attributes. -/
inductive Entity where
  | mk : EntityType → List (String × Value) → List (String × RelVal) → Entity

/-- What `getattr(self, r)` yields for a relationship `r`: a raising
access (`fail`), a single related instance, or a list of them. -/
inductive RelVal where
  | fail : RelVal
  | one : Entity → RelVal
  | many : List Entity → RelVal
end

/-- A value appearing in the mapping produced by `prepare`: a scalar copied
from the instance dictionary, a nested mapping for a related instance, a
list of nested mappings for a list-valued relationship, or the instance
itself (the `json=False` escape hatch). -/
inductive PValue where
  | scalar : Value → PValue
  | obj : List (String × PValue) → PValue
  | arr : List PValue → PValue
  | inst : Entity → PValue

/-- Python-dict lookup on an association list (first match). -/
def dictGet {α : Type} : List (String × α) → String → Option α
  | [], _ => none
  | p :: rest, k => if p.1 = k then some p.2 else dictGet rest k

/-- Python-dict item assignment: replace the first binding of `k` in
place, or append a new binding (insertion-order semantics). -/
def dictSet {α : Type} : List (String × α) → String → α → List (String × α)
  | [], k, v => [(k, v)]
  | p :: rest, k, v => if p.1 = k then (k, v) :: rest else p :: dictSet rest k v

/-- `d[k]` as the Python expression: raises `KeyError` when absent. -/
def dictGetE {α : Type} (m : List (String × α)) (k : String) : Except PyErr α :=
  match dictGet m k with
  | some v => .ok v
  | none => .error .keyError

/-- The keys of an association list, in order. -/
def dictKeys {α : Type} (m : List (String × α)) : List String :=
  m.map Prod.fst

def Entity.ty : Entity → EntityType
  | .mk t _ _ => t

def Entity.dict : Entity → List (String × Value)
  | .mk _ d _ => d

def Entity.rels : Entity → List (String × RelVal)
  | .mk _ _ r => r

/-- `setattr(self, k, v)` for a column attribute: updates the instance
dictionary. -/
def Entity.setAttr (e : Entity) (k : String) (v : Value) : Entity :=
  .mk e.ty (dictSet e.dict k v) e.rels

/-- `getattr(cls, n)` on the model class: looks through the class's own
attributes and then the inherited ones; raises `AttributeError` when the
name is not an attribute at all. -/
def getattrE (cls : EntityType) (n : String) : Except PyErr InstrAttr :=
  match dictGet (cls.attrs ++ cls.baseAttrs) n with
  | some a => .ok a
  | none => .error .attributeError

/-- `check_inputs(cls, field, value)` (module level, lines 22-32).
`key_name` is the plain name of the reference; `getattr(cls, field)` with a
non-string `field` (an `InstrumentedAttribute`) raises `TypeError` in
Python, modelled directly.  The source's extra `key_name is None` disjunct
is vacuous here because names are strings. -/
def check_inputs (cls : EntityType) (field : FieldRef) (value : Value) :
    Except PyErr (List (String × Value)) :=
  match field with
  | .str s =>
    match getattrE cls s with
    | .error e => .error e
    | .ok instrument =>
      if (dictGet cls.attrs instrument.key).isNone then
        .error (.valueError "Invalid input field")
      else
        .ok [(instrument.key, value)]
  | .attr _ => .error .typeError

/-- `DeclarativeBase.normalise(field)` (lines 56-68). -/
def normalise : FieldRef → String
  | .attr a => a.name
  | .str s => s

/-- `DeclarativeBase.keys()` (lines 109-113): table column names minus
relationship names.  The source builds a Python set; the list here is read
up to membership. -/
def EntityType.keys (ty : EntityType) : List String :=
  ty.columns.filter (fun k => decide (k ∉ ty.relationships))

/-- `DeclarativeBase.fields(inc, exc)` (lines 77-87): the keys not among
the normalised exclusions (`inc` is accepted but unused in the source). -/
def EntityType.fields (ty : EntityType) (exc : List FieldRef) : List String :=
  (ty.keys.filter (fun k => decide (k ∉ exc.map normalise))).map
    (fun k => normalise (.str k))

/-- `DeclarativeBase.getkey(cls, field)` (lines 115-119). -/
def getkey (cls : EntityType) (field : FieldRef) : Except PyErr InstrAttr :=
  match field with
  | .attr a => getattrE cls a.key
  | .str s => getattrE cls s

/-- `columns(self)` (lines 121-123): the keys of the `ColumnProperty`
properties of the class, i.e. the mapped columns. -/
def Entity.columns (e : Entity) : List String :=
  e.ty.columns

/-- The possible outcomes of the underlying `db.session.commit()` call,
classified by the exception type it raises (if any). -/
inductive CommitOutcome where
  | success
  | operational : String → CommitOutcome
  | integrity : String → CommitOutcome
  | unclassified : String → CommitOutcome

/-- Operations performed on the shared `db.session`. -/
inductive SessionOp where
  | commitOp
  | rollbackOp
  | closeOp
  | addOp
  | deleteOp
deriving DecidableEq

/-- `sessioncommit()` (lines 35-48), as a function of the underlying
commit outcome.  Returns the control-flow result together with the session
operations performed and the logger messages emitted, in order.  The
`finally` block logs `'DB execution cycle complete'` on every path; the
`OperationalError` arm logs the error, rolls back and closes (twice, as in
the source) and swallows; `IntegrityError` and any other exception are
re-raised. -/
def sessioncommit : CommitOutcome → Except PyErr Unit × List SessionOp × List String
  | .success =>
      (.ok (), [.commitOp], ["DB execution cycle complete"])
  | .operational m =>
      (.ok (), [.commitOp, .rollbackOp, .closeOp, .closeOp],
        [m, "DB execution cycle complete"])
  | .integrity m =>
      (.error (.integrityError m), [.commitOp], ["DB execution cycle complete"])
  | .unclassified m =>
      (.error (.otherError m), [.commitOp], ["DB execution cycle complete"])

/-- The mutable context of a lifecycle call: the instance (`self`), the
session-operation trace, the logger output, and how many commits have been
attempted (used to index the commit-outcome environment). -/
structure St where
  ent : Entity
  ops : List SessionOp
  logs : List String
  ncommit : Nat

/-- One `sessioncommit()` call performed in context: consumes the next
commit outcome from the environment `env`. -/
def runCommit (env : Nat → CommitOutcome) (s : St) : Except PyErr Unit × St :=
  match sessioncommit (env s.ncommit) with
  | (r, newOps, newLogs) =>
    (r, St.mk s.ent (s.ops ++ newOps) (s.logs ++ newLogs) (s.ncommit + 1))

/-- `save(self, _commit=True)` (lines 217-221): `db.session.add(self)`,
then `sessioncommit()` when `_commit` is set, returning `self`. -/
def save (env : Nat → CommitOutcome) (co : Bool) (s : St) : Except PyErr Entity × St :=
  let s1 := St.mk s.ent (s.ops ++ [.addOp]) s.logs s.ncommit
  if co then
    match runCommit env s1 with
    | (.ok _, s2) => (.ok s2.ent, s2)
    | (.error e, s2) => (.error e, s2)
  else
    (.ok s1.ent, s1)

/-- The `for attr, value in kwargs.items()` loop of `update` (lines
224-226): assign each value whose key is not `'id'` and is in
`self.fields()`. -/
def update_loop (e : Entity) : List (String × Value) → Entity
  | [] => e
  | (attr, value) :: rest =>
    if attr ≠ "id" ∧ attr ∈ e.ty.fields [] then
      update_loop (e.setAttr attr value) rest
    else
      update_loop e rest

/-- `update(self, _commit=True, **kwargs)` (lines 223-227): run the
assignment loop, then `_commit and self.save() or self`. -/
def update (env : Nat → CommitOutcome) (co : Bool) (kwargs : List (String × Value))
    (s : St) : Except PyErr Entity × St :=
  let s1 := St.mk (update_loop s.ent kwargs) s.ops s.logs s.ncommit
  if co then save env true s1 else (.ok s1.ent, s1)

/-- `sdelete(self, _commit=True)` (lines 207-210): set `active = 'D'`,
commit unconditionally, then `_commit and self.save() or self`. -/
def sdelete (env : Nat → CommitOutcome) (co : Bool) (s : St) : Except PyErr Entity × St :=
  let s1 := St.mk (s.ent.setAttr "active" (.vStr "D")) s.ops s.logs s.ncommit
  match runCommit env s1 with
  | (.error e, s2) => (.error e, s2)
  | (.ok _, s2) => if co then save env true s2 else (.ok s2.ent, s2)

/-- `restore(self, _commit=True)` (lines 212-215): mirror of `sdelete`
with `active = 'Y'`. -/
def restore (env : Nat → CommitOutcome) (co : Bool) (s : St) : Except PyErr Entity × St :=
  let s1 := St.mk (s.ent.setAttr "active" (.vStr "Y")) s.ops s.logs s.ncommit
  match runCommit env s1 with
  | (.error e, s2) => (.error e, s2)
  | (.ok _, s2) => if co then save env true s2 else (.ok s2.ent, s2)

/-- The field-comparison loop of `__eq__` (lines 190-194), with its
early `break`; the dictionary subscripts raise `KeyError` when a column is
absent (no handler in the source). -/
def eq_loop (bd cd : List (String × Value)) : List String → Except PyErr Bool
  | [] => .ok true
  | c :: rest =>
    match dictGetE bd c with
    | .error e => .error e
    | .ok x =>
      match dictGetE cd c with
      | .error e => .error e
      | .ok y => if x ≠ y then .ok false else eq_loop bd cd rest

/-- `__eq__(self, comparison)` (lines 184-195).  Note the source binds
`comp_dictionary = self.__dict__` (line 189), so both sides of the
comparison read from `self`; the embedding reproduces this. -/
def eq_method (self comparison : Entity) : Except PyErr Bool :=
  if self.ty ≠ comparison.ty then
    .error (.valueError "Objects are not the same. Cannot compare")
  else
    eq_loop self.dict self.dict self.columns

/-- The body of the column loop of `prepare` (lines 153-160): a datetime
value is rendered through `str`, anything else is copied as is. -/
def render_column : Value → PValue
  | .vDatetime s => .scalar (.vStr s)
  | v => .scalar v

/-- One iteration of the column loop of `prepare` (lines 153-160):
`model_dictionary[c]` raises `KeyError` for a column absent from the
instance dictionary, and exactly that exception is caught and ignored. -/
def column_step (d : List (String × Value)) (resp : List (String × PValue))
    (c : String) : Except PyErr (List (String × PValue)) :=
  match dictGetE d c with
  | .ok v => .ok (dictSet resp c (render_column v))
  | .error .keyError => .ok resp
  | .error e => .error e

/-- The column loop of `prepare` over the non-excluded columns. -/
def columns_loop (d : List (String × Value)) (resp : List (String × PValue)) :
    List String → Except PyErr (List (String × PValue))
  | [] => .ok resp
  | c :: rest =>
    match column_step d resp c with
    | .ok r => columns_loop d r rest
    | .error e => .error e

/-- `getattr(self, r)` for a relationship name `r`: yields the single
related instance or the list of them; a missing or failing relationship
access raises. -/
def getRelE (e : Entity) (r : String) : Except PyErr (Sum Entity (List Entity)) :=
  match dictGet e.rels r with
  | some (.one sub) => .ok (.inl sub)
  | some (.many items) => .ok (.inr items)
  | some .fail => .error .attributeError
  | none => .error .attributeError

/-- The `rel` argument of `prepare`: the Python call sites pass the
literal `False`, the literal `True`, or a list of attribute handles (here
already projected to their `key` names, as the source does with
`map(lambda item: item.key, rel)`). -/
inductive RelArg where
  | fls
  | tru
  | names : List String → RelArg
deriving DecidableEq

/-- Whether `rel is False` holds. -/
def relIsFls : RelArg → Bool
  | .fls => true
  | _ => false

/-- Termination measure: the recursive calls of `prepare` always pass
`rel=False`, under which the relationship loop is unreachable. -/
def relRank : RelArg → Nat
  | .fls => 0
  | _ => 1

/-- The effect of lines 138-141 on the `exc` argument: default to
`['password']`, otherwise append `'password'` to the caller's list. -/
def excAfter : Option (List String) → List String
  | none => ["password"]
  | some l => l ++ ["password"]

mutual

/-- `prepare(self, rel=False, json=True, exc=None)` (lines 125-182).
Returns the produced value (`PValue.inst self` when `json` is false, the
response mapping otherwise) together with the final contents of the
(mutated) `exc` list. -/
def prepare (e : Entity) (rel : RelArg) (json : Bool) (exc : Option (List String)) :
    Except PyErr (PValue × List String) :=
  let exc1 := excAfter exc
  if json = false then
    .ok (.inst e, exc1)
  else
    match columns_loop e.dict []
        (e.ty.columns.filter (fun c => decide (c ∉ exc1))) with
    | .error err => .error err
    | .ok resp =>
      if h : relIsFls rel = true ∨ e.ty.relationships = [] then
        .ok (.obj resp, exc1)
      else
        let mapped := match rel with
          | .tru => e.ty.relationships
          | .names l => if l.length ≠ 0 then l else e.ty.relationships
          | .fls => e.ty.relationships
        match rel_loop e mapped resp exc1 with
        | (resp2, exc2) => .ok (.obj resp2, exc2)
termination_by (relRank rel, 0, 0)
decreasing_by
  simp_wf
  rcases rel with _ | _ | l
  · simp [relIsFls] at h
  · simp [relRank]
    exact Prod.Lex.left _ _ (by omega)
  · simp [relRank]
    exact Prod.Lex.left _ _ (by omega)

/-- The relationship loop of `prepare` (lines 171-181): each iteration
resolves `getattr(self, r)` and recursively prepares the related
instance(s) with `rel=False` and the shared `exc` list; any exception in
the iteration body is swallowed (`except Exception: pass`), leaving the
response and the exclusion list as they were at the start of the
iteration. -/
def rel_loop (e : Entity) (rs : List String) (resp : List (String × PValue))
    (exc : List String) : List (String × PValue) × List String :=
  match rs with
  | [] => (resp, exc)
  | r :: rest =>
    match
      (match getRelE e r with
       | .error err => .error err
       | .ok (.inr items) =>
         match prep_list items exc with
         | .error err => .error err
         | .ok (vals, exc2) => .ok (dictSet resp r (.arr vals), exc2)
       | .ok (.inl sub) =>
         match prepare sub .fls true (some exc) with
         | .error err => .error err
         | .ok (v, exc2) => .ok (dictSet resp r v, exc2)
       : Except PyErr (List (String × PValue) × List String)) with
    | .ok (resp2, exc2) => rel_loop e rest resp2 exc2
    | .error _ => rel_loop e rest resp exc
termination_by (0, 1, rs.length)
decreasing_by
  all_goals simp_wf
  all_goals try simp [relRank]
  all_goals first
    | exact Prod.Lex.left _ _ (by omega)
    | exact Prod.Lex.right _ (Prod.Lex.left _ _ (by omega))
    | exact Prod.Lex.right _ (Prod.Lex.right _ (by omega))

/-- The list comprehension of line 174-176: prepare each element of a
list-valued relationship with `rel=False` and the shared `exc` list. -/
def prep_list (items : List Entity) (exc : List String) :
    Except PyErr (List PValue × List String) :=
  match items with
  | [] => .ok ([], exc)
  | i :: rest =>
    match prepare i .fls true (some exc) with
    | .error err => .error err
    | .ok (v, exc2) =>
      match prep_list rest exc2 with
      | .error err => .error err
      | .ok (vs, exc3) => .ok (v :: vs, exc3)
termination_by (0, 0, items.length + 1)
decreasing_by
  all_goals simp_wf
  all_goals try simp [relRank]
  all_goals first
    | exact Prod.Lex.left _ _ (by omega)
    | exact Prod.Lex.right _ (Prod.Lex.left _ _ (by omega))
    | exact Prod.Lex.right _ (Prod.Lex.right _ (by omega))

end

/-- The keys of the mapping produced by a `prepare` call (empty for the
non-mapping outcomes). -/
def prepKeys (r : Except PyErr (PValue × List String)) : List String :=
  match r with
  | .ok (.obj m, _) => dictKeys m
  | _ => []

/-- The final contents of the `exc` list after a `prepare` call. -/
def excOut (r : Except PyErr (PValue × List String)) : List String :=
  match r with
  | .ok (_, l) => l
  | .error _ => []

mutual
/-- Nesting depth of a serialized value: scalars and raw instances are
flat; mappings and lists add one level. -/
def pdepth : PValue → Nat
  | .scalar _ => 0
  | .inst _ => 0
  | .obj m => 1 + pdepthObj m
  | .arr l => 1 + pdepthArr l

def pdepthObj : List (String × PValue) → Nat
  | [] => 0
  | (_, v) :: rest => max (pdepth v) (pdepthObj rest)

def pdepthArr : List PValue → Nat
  | [] => 0
  | v :: rest => max (pdepth v) (pdepthArr rest)
end

/-- Every value of the mapping is a flat scalar. -/
def allScalar (m : List (String × PValue)) : Prop :=
  ∀ p ∈ m, ∃ v, p.2 = PValue.scalar v

/-- The commit-outcome environment in which every attempted commit
succeeds. -/
def succEnv : Nat → CommitOutcome := fun _ => .success

-- Concrete instances used to exercise the definitions.

def tyC : EntityType :=
  EntityType.mk "C" ["id", "c_secret"] [] [] []

def tyB : EntityType :=
  EntityType.mk "B" ["id", "bfield"] ["c"] [] []

def tyA : EntityType :=
  EntityType.mk "A" ["id", "afield"] ["b"] [] []

def entC : Entity :=
  Entity.mk tyC [("id", .vInt 3), ("c_secret", .vStr "s")] []

def entB : Entity :=
  Entity.mk tyB [("id", .vInt 2), ("bfield", .vInt 20)] [("c", .one entC)]

def entA : Entity :=
  Entity.mk tyA [("id", .vInt 1), ("afield", .vInt 10)] [("b", .one entB)]

/-- A type whose instances carry a plain scalar column `a`. -/
def ty2 : EntityType :=
  EntityType.mk "T2" ["id", "a"] [] [] []

/-- A second, distinct type with the same column layout. -/
def ty2other : EntityType :=
  EntityType.mk "T2other" ["id", "a"] [] [] []

def ent2a : Entity :=
  Entity.mk ty2 [("id", .vInt 1), ("a", .vInt 1)] []

def ent2b : Entity :=
  Entity.mk ty2 [("id", .vInt 1), ("a", .vInt 2)] []

def ent2other : Entity :=
  Entity.mk ty2other [("id", .vInt 1), ("a", .vInt 1)] []

/-- A type with a column that may be absent from the instance dictionary
and a relationship whose access fails. -/
def tyW : EntityType :=
  EntityType.mk "W" ["id", "ghost"] ["r"] [] []

def entW : Entity :=
  Entity.mk tyW [("id", .vInt 7)] [("r", .fail)]

/-- A type with a `password` column. -/
def tyP : EntityType :=
  EntityType.mk "U" ["id", "password", "email"] [] [] []

def entP : Entity :=
  Entity.mk tyP
    [("id", .vInt 1), ("password", .vStr "hunter2"), ("email", .vStr "a@b")] []

/-- A model class with two declared column attributes of its own and one
inherited from the abstract base. -/
def cls9 : EntityType :=
  EntityType.mk "Widget" ["id", "name"] []
    [("id", InstrAttr.mk "id" "id"), ("name", InstrAttr.mk "name" "name")]
    [("active", InstrAttr.mk "active" "active")]

/-- An initial lifecycle context. -/
def st0 : St := St.mk ent2a [] [] 0

-- ## Supporting lemmas

theorem dictGet_dictSet_self {α : Type} (m : List (String × α)) (k : String) (v : α) :
    dictGet (dictSet m k v) k = some v := by
  induction m with
  | nil => simp [dictSet, dictGet]
  | cons p rest ih =>
    by_cases h : p.1 = k
    · simp [dictSet, dictGet, h]
    · simp [dictSet, dictGet, h, ih]

theorem dictGet_dictSet_ne {α : Type} (m : List (String × α)) (k k' : String) (v : α)
    (h : k' ≠ k) : dictGet (dictSet m k v) k' = dictGet m k' := by
  induction m with
  | nil => simp [dictSet, dictGet, Ne.symm h]
  | cons p rest ih =>
    by_cases h1 : p.1 = k
    · simp [dictSet, dictGet, h1, Ne.symm h]
    · simp [dictSet, dictGet, h1, ih]

theorem mem_dictSet {α : Type} (m : List (String × α)) (k : String) (v : α)
    (p : String × α) (h : p ∈ dictSet m k v) : p = (k, v) ∨ p ∈ m := by
  induction m with
  | nil => simpa [dictSet] using h
  | cons q rest ih =>
    by_cases h1 : q.1 = k
    · simp only [dictSet, if_pos h1, List.mem_cons] at h
      rcases h with h | h
      · exact Or.inl h
      · exact Or.inr (List.mem_cons_of_mem _ h)
    · simp only [dictSet, if_neg h1, List.mem_cons] at h
      rcases h with h | h
      · exact Or.inr (h ▸ List.mem_cons_self _ _)
      · rcases ih h with h2 | h2
        · exact Or.inl h2
        · exact Or.inr (List.mem_cons_of_mem _ h2)

theorem mem_dictKeys_dictSet {α : Type} (m : List (String × α)) (k : String) (v : α)
    (a : String) (h : a ∈ dictKeys (dictSet m k v)) : a = k ∨ a ∈ dictKeys m := by
  simp only [dictKeys, List.mem_map] at h ⊢
  obtain ⟨p, hp, hpa⟩ := h
  rcases mem_dictSet m k v p hp with h2 | h2
  · left; rw [← hpa, h2]
  · right; exact ⟨p, h2, hpa⟩

theorem render_column_scalar (v : Value) : ∃ w, render_column v = PValue.scalar w := by
  cases v <;> simp [render_column]

theorem columns_loop_isOk (cols : List String) (d : List (String × Value))
    (resp : List (String × PValue)) : ∃ r, columns_loop d resp cols = .ok r := by
  induction cols generalizing resp with
  | nil => exact ⟨resp, rfl⟩
  | cons c rest ih =>
    simp only [columns_loop, column_step, dictGetE]
    cases hd : dictGet d c with
    | none => simpa using ih resp
    | some v => simpa using ih (dictSet resp c (render_column v))

theorem columns_loop_keys (cols : List String) (d : List (String × Value))
    (resp r : List (String × PValue)) (hok : columns_loop d resp cols = .ok r)
    (a : String) (ha : a ∈ dictKeys r) : a ∈ dictKeys resp ∨ a ∈ cols := by
  induction cols generalizing resp with
  | nil =>
    simp only [columns_loop] at hok
    cases hok
    exact Or.inl ha
  | cons c rest ih =>
    simp only [columns_loop, column_step, dictGetE] at hok
    cases hd : dictGet d c with
    | none =>
      rw [hd] at hok
      rcases ih resp hok with h | h
      · exact Or.inl h
      · exact Or.inr (List.mem_cons_of_mem _ h)
    | some v =>
      rw [hd] at hok
      rcases ih (dictSet resp c (render_column v)) hok with h | h
      · rcases mem_dictKeys_dictSet _ _ _ _ h with h2 | h2
        · exact Or.inr (h2 ▸ List.mem_cons_self _ _)
        · exact Or.inl h2
      · exact Or.inr (List.mem_cons_of_mem _ h)

theorem columns_loop_scalar (cols : List String) (d : List (String × Value))
    (resp r : List (String × PValue)) (hresp : allScalar resp)
    (hok : columns_loop d resp cols = .ok r) : allScalar r := by
  induction cols generalizing resp with
  | nil =>
    simp only [columns_loop] at hok
    cases hok
    exact hresp
  | cons c rest ih =>
    simp only [columns_loop, column_step, dictGetE] at hok
    cases hd : dictGet d c with
    | none =>
      rw [hd] at hok
      exact ih resp hresp hok
    | some v =>
      rw [hd] at hok
      refine ih (dictSet resp c (render_column v)) ?_ hok
      intro p hp
      rcases mem_dictSet _ _ _ _ hp with h2 | h2
      · obtain ⟨w, hw⟩ := render_column_scalar v
        exact ⟨w, by rw [h2, hw]⟩
      · exact hresp p h2

theorem columns_loop_absent (cols : List String) (d : List (String × Value))
    (resp r : List (String × PValue)) (c : String) (hc : dictGet d c = none)
    (hr : c ∉ dictKeys resp) (hok : columns_loop d resp cols = .ok r) :
    c ∉ dictKeys r := by
  induction cols generalizing resp with
  | nil =>
    simp only [columns_loop] at hok
    cases hok
    exact hr
  | cons c1 rest ih =>
    simp only [columns_loop, column_step, dictGetE] at hok
    cases hd : dictGet d c1 with
    | none =>
      rw [hd] at hok
      exact ih resp hr hok
    | some v =>
      rw [hd] at hok
      refine ih (dictSet resp c1 (render_column v)) ?_ hok
      intro hmem
      rcases mem_dictKeys_dictSet _ _ _ _ hmem with h2 | h2
      · rw [h2] at hc
        rw [hc] at hd
        cases hd
      · exact hr h2

theorem prepare_json_false (e : Entity) (rel : RelArg) (exc : Option (List String)) :
    prepare e rel false exc = .ok (.inst e, excAfter exc) := by
  simp only [prepare]
  simp

theorem prepare_fls_eq (e : Entity) (exc : Option (List String)) :
    prepare e .fls true exc =
      match columns_loop e.dict []
          (e.ty.columns.filter (fun c => decide (c ∉ excAfter exc))) with
      | .error err => .error err
      | .ok resp => .ok (.obj resp, excAfter exc) := by
  simp only [prepare]
  cases columns_loop e.dict []
      (e.ty.columns.filter (fun c => decide (c ∉ excAfter exc))) with
  | error err => simp
  | ok resp => simp [relIsFls]

theorem prepare_relempty_eq (e : Entity) (rel : RelArg) (exc : Option (List String))
    (h : e.ty.relationships = []) :
    prepare e rel true exc =
      match columns_loop e.dict []
          (e.ty.columns.filter (fun c => decide (c ∉ excAfter exc))) with
      | .error err => .error err
      | .ok resp => .ok (.obj resp, excAfter exc) := by
  simp only [prepare]
  cases columns_loop e.dict []
      (e.ty.columns.filter (fun c => decide (c ∉ excAfter exc))) with
  | error err => simp
  | ok resp => simp [h]

theorem prepare_tru_eq (e : Entity) (exc : Option (List String))
    (h : e.ty.relationships ≠ []) :
    prepare e .tru true exc =
      match columns_loop e.dict []
          (e.ty.columns.filter (fun c => decide (c ∉ excAfter exc))) with
      | .error err => .error err
      | .ok resp =>
        match rel_loop e e.ty.relationships resp (excAfter exc) with
        | (resp2, exc2) => .ok (.obj resp2, exc2) := by
  simp only [prepare]
  cases columns_loop e.dict []
      (e.ty.columns.filter (fun c => decide (c ∉ excAfter exc))) with
  | error err => simp
  | ok resp => simp [relIsFls, h]

theorem prepare_ok (e : Entity) (rel : RelArg) (json : Bool)
    (exc : Option (List String)) : ∃ out, prepare e rel json exc = .ok out := by
  cases json with
  | false => exact ⟨_, prepare_json_false e rel exc⟩
  | true =>
    simp only [prepare]
    obtain ⟨r, hr⟩ := columns_loop_isOk
      (e.ty.columns.filter (fun c => decide (c ∉ excAfter exc))) e.dict []
    rw [hr]
    by_cases hd : relIsFls rel = true ∨ e.ty.relationships = []
    · simp [hd]
    · simp only [reduceIte, hd, dite_false]
      exact ⟨_, rfl⟩

theorem prep_list_ok (items : List Entity) (exc : List String) :
    ∃ out, prep_list items exc = .ok out := by
  induction items generalizing exc with
  | nil => exact ⟨([], exc), by simp only [prep_list]⟩
  | cons i rest ih =>
    obtain ⟨⟨v, exc2⟩, hp⟩ := prepare_ok i .fls true (some exc)
    obtain ⟨⟨vs, exc3⟩, h2⟩ := ih exc2
    refine ⟨(v :: vs, exc3), ?_⟩
    simp only [prep_list, hp, h2]

theorem getRelE_fail (e : Entity) (r : String) (h : dictGet e.rels r = some .fail) :
    getRelE e r = .error .attributeError := by
  simp [getRelE, h]

theorem rel_loop_keys (e : Entity) (rs : List String) (resp : List (String × PValue))
    (exc : List String) (a : String) (ha : a ∈ dictKeys (rel_loop e rs resp exc).1) :
    a ∈ dictKeys resp ∨ (a ∈ rs ∧ ∃ x, getRelE e a = .ok x) := by
  induction rs generalizing resp exc with
  | nil =>
    simp only [rel_loop] at ha
    exact Or.inl ha
  | cons r rest ih =>
    cases hg : getRelE e r with
    | error err =>
      simp only [rel_loop, hg] at ha
      rcases ih resp exc ha with h | ⟨h1, h2⟩
      · exact Or.inl h
      · exact Or.inr ⟨List.mem_cons_of_mem _ h1, h2⟩
    | ok val =>
      cases val with
      | inl sub =>
        obtain ⟨⟨v, exc2⟩, hp⟩ := prepare_ok sub .fls true (some exc)
        simp only [rel_loop, hg, hp] at ha
        rcases ih _ _ ha with h | ⟨h1, h2⟩
        · rcases mem_dictKeys_dictSet _ _ _ _ h with h3 | h3
          · subst h3
            exact Or.inr ⟨List.mem_cons_self _ _, ⟨_, hg⟩⟩
          · exact Or.inl h3
        · exact Or.inr ⟨List.mem_cons_of_mem _ h1, h2⟩
      | inr items =>
        obtain ⟨⟨vs, exc2⟩, hp⟩ := prep_list_ok items exc
        simp only [rel_loop, hg, hp] at ha
        rcases ih _ _ ha with h | ⟨h1, h2⟩
        · rcases mem_dictKeys_dictSet _ _ _ _ h with h3 | h3
          · subst h3
            exact Or.inr ⟨List.mem_cons_self _ _, ⟨_, hg⟩⟩
          · exact Or.inl h3
        · exact Or.inr ⟨List.mem_cons_of_mem _ h1, h2⟩

theorem allScalar_nil : allScalar [] := by
  intro p hp
  cases hp

theorem prepare_fls_shape (e : Entity) (exc : Option (List String)) :
    ∃ m, prepare e .fls true exc = .ok (.obj m, excAfter exc) ∧ allScalar m := by
  obtain ⟨r, hr⟩ := columns_loop_isOk
    (e.ty.columns.filter (fun c => decide (c ∉ excAfter exc))) e.dict []
  refine ⟨r, ?_, columns_loop_scalar _ _ _ _ allScalar_nil hr⟩
  rw [prepare_fls_eq, hr]

theorem allScalar_pdepthObj (m : List (String × PValue)) (h : allScalar m) :
    pdepthObj m = 0 := by
  induction m with
  | nil => simp [pdepthObj]
  | cons p rest ih =>
    obtain ⟨k, v⟩ := p
    obtain ⟨w, hw⟩ := h (k, v) (List.mem_cons_self _ _)
    simp only at hw
    subst hw
    have hrest : allScalar rest := fun q hq => h q (List.mem_cons_of_mem _ hq)
    simp [pdepthObj, pdepth, ih hrest]

theorem pdepthArr_le (l : List PValue) (n : Nat) (h : ∀ v ∈ l, pdepth v ≤ n) :
    pdepthArr l ≤ n := by
  induction l with
  | nil => simp [pdepthArr]
  | cons v rest ih =>
    simp only [pdepthArr]
    exact max_le (h v (List.mem_cons_self _ _))
      (ih fun q hq => h q (List.mem_cons_of_mem _ hq))

theorem pdepthObj_le (m : List (String × PValue)) (n : Nat)
    (h : ∀ p ∈ m, pdepth p.2 ≤ n) : pdepthObj m ≤ n := by
  induction m with
  | nil => simp [pdepthObj]
  | cons p rest ih =>
    obtain ⟨k, v⟩ := p
    simp only [pdepthObj]
    exact max_le (h (k, v) (List.mem_cons_self _ _))
      (ih fun q hq => h q (List.mem_cons_of_mem _ hq))

theorem prep_list_shape (items : List Entity) (exc : List String) :
    ∃ vs exc2, prep_list items exc = .ok (vs, exc2) ∧ ∀ v ∈ vs, pdepth v ≤ 1 := by
  induction items generalizing exc with
  | nil =>
    refine ⟨[], exc, by simp only [prep_list], ?_⟩
    intro v hv
    cases hv
  | cons i rest ih =>
    obtain ⟨m, hp, hsc⟩ := prepare_fls_shape i (some exc)
    obtain ⟨vs, exc3, h2, h3⟩ := ih (excAfter (some exc))
    refine ⟨.obj m :: vs, exc3, by simp only [prep_list, hp, h2], ?_⟩
    intro v hv
    rcases List.mem_cons.mp hv with h | h
    · subst h
      simp [pdepth, allScalar_pdepthObj m hsc]
    · exact h3 v h

theorem rel_loop_depth (e : Entity) (rs : List String) (resp : List (String × PValue))
    (exc : List String) (h : ∀ p ∈ resp, pdepth p.2 ≤ 2) :
    ∀ p ∈ (rel_loop e rs resp exc).1, pdepth p.2 ≤ 2 := by
  induction rs generalizing resp exc with
  | nil => simpa only [rel_loop] using h
  | cons r rest ih =>
    cases hg : getRelE e r with
    | error err =>
      simp only [rel_loop, hg]
      exact ih resp exc h
    | ok val =>
      cases val with
      | inl sub =>
        obtain ⟨m, hp, hsc⟩ := prepare_fls_shape sub (some exc)
        simp only [rel_loop, hg, hp]
        refine ih _ _ ?_
        intro p hp2
        rcases mem_dictSet _ _ _ _ hp2 with h2 | h2
        · subst h2
          simp [pdepth, allScalar_pdepthObj m hsc]
        · exact h p h2
      | inr items =>
        obtain ⟨vs, exc2, hp, hd⟩ := prep_list_shape items exc
        simp only [rel_loop, hg, hp]
        refine ih _ _ ?_
        intro p hp2
        rcases mem_dictSet _ _ _ _ hp2 with h2 | h2
        · subst h2
          simp only [pdepth]
          have := pdepthArr_le vs 1 hd
          omega
        · exact h p h2

theorem allScalar_depth_le (m : List (String × PValue)) (h : allScalar m) :
    ∀ p ∈ m, pdepth p.2 ≤ 2 := by
  intro p hp
  obtain ⟨w, hw⟩ := h p hp
  rw [hw]
  simp [pdepth]

theorem prepare_obj_depth (e : Entity) (rel : RelArg) (json : Bool)
    (exc : Option (List String)) (m : List (String × PValue)) (l : List String)
    (hp : prepare e rel json exc = .ok (.obj m, l)) : pdepthObj m ≤ 2 := by
  cases json with
  | false =>
    rw [prepare_json_false] at hp
    simp at hp
  | true =>
    obtain ⟨r, hr⟩ := columns_loop_isOk
      (e.ty.columns.filter (fun c => decide (c ∉ excAfter exc))) e.dict []
    have hsc := columns_loop_scalar _ _ _ _ allScalar_nil hr
    simp only [prepare, hr] at hp
    by_cases hd : relIsFls rel = true ∨ e.ty.relationships = []
    · simp only [hd, dite_true, if_true, reduceIte] at hp
      simp at hp
      obtain ⟨hm, -⟩ := hp
      subst hm
      exact pdepthObj_le _ _ (allScalar_depth_le r hsc)
    · simp only [hd, dite_false] at hp
      simp at hp
      obtain ⟨hm, -⟩ := hp
      subst hm
      exact pdepthObj_le _ _
        (rel_loop_depth e _ r (excAfter exc) (allScalar_depth_le r hsc))

theorem fields_nil (ty : EntityType) : ty.fields [] = ty.keys := by
  simp [EntityType.fields, normalise]

theorem runCommit_ent (env : Nat → CommitOutcome) (s : St) :
    (runCommit env s).2.ent = s.ent := rfl

theorem runCommit_ops (env : Nat → CommitOutcome) (s : St) :
    (runCommit env s).2.ops = s.ops ++ (sessioncommit (env s.ncommit)).2.1 := rfl

theorem save_ent (env : Nat → CommitOutcome) (co : Bool) (s : St) :
    (save env co s).2.ent = s.ent := by
  cases co with
  | false => rfl
  | true =>
    cases ho : env s.ncommit <;>
      simp [save, runCommit, sessioncommit, ho]

theorem update_loop_id (e : Entity) (kwargs : List (String × Value)) :
    dictGet (update_loop e kwargs).dict "id" = dictGet e.dict "id" := by
  induction kwargs generalizing e with
  | nil => rfl
  | cons p rest ih =>
    obtain ⟨attr, value⟩ := p
    by_cases hc : attr ≠ "id" ∧ attr ∈ e.ty.fields []
    · rw [update_loop, if_pos hc, ih]
      exact dictGet_dictSet_ne _ _ _ _ (fun h => hc.1 h.symm)
    · rw [update_loop, if_neg hc, ih]

theorem update_loop_id_single (e : Entity) (v : Value) :
    update_loop e [("id", v)] = e := by
  rw [update_loop, if_neg (by simp)]
  rfl

theorem update_loop_unknown (e : Entity) (f : String) (v : Value)
    (h : f ∉ e.ty.keys) : update_loop e [(f, v)] = e := by
  rw [update_loop, if_neg]
  · rfl
  · intro hc
    rw [fields_nil] at hc
    exact h hc.2

theorem update_ent (env : Nat → CommitOutcome) (co : Bool)
    (kwargs : List (String × Value)) (s : St) :
    (update env co kwargs s).2.ent = update_loop s.ent kwargs := by
  cases co with
  | false => rfl
  | true => exact save_ent env true _

theorem sessioncommit_ops_head (o : CommitOutcome) :
    ∃ tail, (sessioncommit o).2.1 = .commitOp :: tail := by
  cases o <;> exact ⟨_, rfl⟩

theorem save_ops_prefix (env : Nat → CommitOutcome) (co : Bool) (s : St) :
    ∃ rest, (save env co s).2.ops = s.ops ++ rest := by
  cases co with
  | false => exact ⟨[.addOp], rfl⟩
  | true =>
    cases ho : env s.ncommit <;>
      simp [save, runCommit, sessioncommit, ho]

theorem sdelete_ent (env : Nat → CommitOutcome) (co : Bool) (s : St) :
    (sdelete env co s).2.ent = s.ent.setAttr "active" (.vStr "D") := by
  simp only [sdelete]
  rcases hr : runCommit env
      (St.mk (s.ent.setAttr "active" (.vStr "D")) s.ops s.logs s.ncommit)
    with ⟨r, s2⟩
  have h2 : s2.ent = s.ent.setAttr "active" (.vStr "D") := by
    have h3 := runCommit_ent env
      (St.mk (s.ent.setAttr "active" (.vStr "D")) s.ops s.logs s.ncommit)
    rw [hr] at h3
    exact h3
  cases r with
  | error err => simpa [hr] using h2
  | ok u =>
    cases co with
    | false => simpa [hr] using h2
    | true => simp [hr, save_ent, h2]

theorem restore_ent (env : Nat → CommitOutcome) (co : Bool) (s : St) :
    (restore env co s).2.ent = s.ent.setAttr "active" (.vStr "Y") := by
  simp only [restore]
  rcases hr : runCommit env
      (St.mk (s.ent.setAttr "active" (.vStr "Y")) s.ops s.logs s.ncommit)
    with ⟨r, s2⟩
  have h2 : s2.ent = s.ent.setAttr "active" (.vStr "Y") := by
    have h3 := runCommit_ent env
      (St.mk (s.ent.setAttr "active" (.vStr "Y")) s.ops s.logs s.ncommit)
    rw [hr] at h3
    exact h3
  cases r with
  | error err => simpa [hr] using h2
  | ok u =>
    cases co with
    | false => simpa [hr] using h2
    | true => simp [hr, save_ent, h2]

theorem sdelete_ops_prefix (env : Nat → CommitOutcome) (co : Bool) (s : St) :
    ∃ rest, (sdelete env co s).2.ops = s.ops ++ [.commitOp] ++ rest := by
  simp only [sdelete]
  rcases hr : runCommit env
      (St.mk (s.ent.setAttr "active" (.vStr "D")) s.ops s.logs s.ncommit)
    with ⟨r, s2⟩
  obtain ⟨tail, htail⟩ := sessioncommit_ops_head (env s.ncommit)
  have h2 : s2.ops = s.ops ++ [.commitOp] ++ tail := by
    have h3 := runCommit_ops env
      (St.mk (s.ent.setAttr "active" (.vStr "D")) s.ops s.logs s.ncommit)
    rw [hr] at h3
    simp only at h3
    rw [htail] at h3
    simpa using h3
  cases r with
  | error err => exact ⟨tail, by simpa [hr] using h2⟩
  | ok u =>
    cases co with
    | false => exact ⟨tail, by simpa [hr] using h2⟩
    | true =>
      obtain ⟨rest2, hrest2⟩ := save_ops_prefix env true s2
      refine ⟨tail ++ rest2, ?_⟩
      simp only [hr, if_true]
      rw [hrest2, h2]
      simp

theorem restore_ops_prefix (env : Nat → CommitOutcome) (co : Bool) (s : St) :
    ∃ rest, (restore env co s).2.ops = s.ops ++ [.commitOp] ++ rest := by
  simp only [restore]
  rcases hr : runCommit env
      (St.mk (s.ent.setAttr "active" (.vStr "Y")) s.ops s.logs s.ncommit)
    with ⟨r, s2⟩
  obtain ⟨tail, htail⟩ := sessioncommit_ops_head (env s.ncommit)
  have h2 : s2.ops = s.ops ++ [.commitOp] ++ tail := by
    have h3 := runCommit_ops env
      (St.mk (s.ent.setAttr "active" (.vStr "Y")) s.ops s.logs s.ncommit)
    rw [hr] at h3
    simp only at h3
    rw [htail] at h3
    simpa using h3
  cases r with
  | error err => exact ⟨tail, by simpa [hr] using h2⟩
  | ok u =>
    cases co with
    | false => exact ⟨tail, by simpa [hr] using h2⟩
    | true =>
      obtain ⟨rest2, hrest2⟩ := save_ops_prefix env true s2
      refine ⟨tail ++ rest2, ?_⟩
      simp only [hr, if_true]
      rw [hrest2, h2]
      simp

-- ## Claims

/-- C1 (counterexample): the fixed trace message that `sessioncommit` logs
on every exit path is the literal `'DB execution cycle complete'`, not
`'commit cycle complete'` as the claim states: on a successful commit the
log contains no `'commit cycle complete'` entry. -/
theorem C1_counterexample :
    (sessioncommit .success).2.2 = ["DB execution cycle complete"] ∧
    "commit cycle complete" ∉ (sessioncommit .success).2.2 := by
  refine ⟨rfl, ?_⟩
  simp [sessioncommit]

/-- C1 (amended): `sessioncommit` classifies failures as the claim states
— an operational failure is logged, rolled back, the session closed, and
not re-raised; an integrity failure is re-raised to the caller — and on
every exit path the last log entry is the fixed trace message, whose
literal text is `'DB execution cycle complete'`. -/
theorem C1_sessioncommit_policy :
    ∀ m : String,
      (sessioncommit (.operational m)).1 = .ok () ∧
      (sessioncommit (.operational m)).2.1 =
        [.commitOp, .rollbackOp, .closeOp, .closeOp] ∧
      m ∈ (sessioncommit (.operational m)).2.2 ∧
      (sessioncommit (.integrity m)).1 = .error (.integrityError m) ∧
      ∀ o : CommitOutcome,
        (sessioncommit o).2.2.getLast? = some "DB execution cycle complete" := by
  intro m
  refine ⟨rfl, rfl, ?_, rfl, ?_⟩
  · simp [sessioncommit]
  · intro o
    cases o <;> simp [sessioncommit]

/-- C2: evaluation of `__eq__` at the failing input.  Two same-type
instances whose dictionaries differ on column `a` nevertheless compare
equal, because line 189 binds `comp_dictionary` to `self.__dict__`, so the
loop compares `self` with itself; comparing instances of different types
does raise the type-mismatch `ValueError`. -/
theorem C2_eq_ignores_comparison :
    ent2a.dict ≠ ent2b.dict ∧
    eq_method ent2a ent2b = .ok true ∧
    eq_method ent2b ent2a = .ok true ∧
    eq_method ent2a ent2other =
      .error (.valueError "Objects are not the same. Cannot compare") := by
  refine ⟨?_, rfl, rfl, rfl⟩
  decide

/-- C3: for every instance and every caller-supplied exclusion list, the
mapping produced by `prepare` (plain-data output, default `rel`) contains
no key named `password`, and every caller-supplied exclusion is also
absent — the caller's list is added to the default, not substituted for
it; the default-argument call likewise omits `password`. -/
theorem C3_password_excluded :
    ∀ (e : Entity) (exc : List String),
      "password" ∉ prepKeys (prepare e .fls true (some exc)) ∧
      (∀ n ∈ exc, n ∉ prepKeys (prepare e .fls true (some exc))) ∧
      "password" ∉ prepKeys (prepare e .fls true none) := by
  have key : ∀ (e : Entity) (exc0 : Option (List String)) (a : String),
      a ∈ excAfter exc0 → a ∉ prepKeys (prepare e .fls true exc0) := by
    intro e exc0 a ha hmem
    obtain ⟨r, hr⟩ := columns_loop_isOk
      (e.ty.columns.filter (fun c => decide (c ∉ excAfter exc0))) e.dict []
    rw [prepare_fls_eq, hr] at hmem
    simp only [prepKeys] at hmem
    rcases columns_loop_keys _ _ _ _ hr a hmem with h | h
    · cases h
    · have := (List.mem_filter.mp h).2
      simp at this
      exact this ha
  intro e exc
  refine ⟨key e (some exc) _ ?_, fun n hn => key e (some exc) n ?_,
    key e none _ ?_⟩
  · simp [excAfter]
  · simp [excAfter, hn]
  · simp [excAfter]

/-- C3 witness: on a concrete instance carrying `id`, `password` and
`email` columns, serializing with the caller exclusion `['email']` yields
a mapping without `password` and without `email`. -/
theorem C3_witness :
    "password" ∉ prepKeys (prepare entP .fls true (some ["email"])) ∧
    "email" ∉ prepKeys (prepare entP .fls true (some ["email"])) :=
  ⟨(C3_password_excluded entP ["email"]).1,
    (C3_password_excluded entP ["email"]).2.1 "email" (by simp)⟩

/-- C4: the generic `update` never assigns to `id`: for any keyword
payload the `id` entry of the instance dictionary is unchanged, and a call
supplying only `id` leaves the whole instance unchanged, whatever the
commit flag and commit outcomes. -/
theorem C4_update_never_sets_id :
    ∀ (e : Entity) (kwargs : List (String × Value)),
      dictGet (update_loop e kwargs).dict "id" = dictGet e.dict "id" ∧
      ∀ (env : Nat → CommitOutcome) (co : Bool) (s : St) (v : Value),
        (update env co [("id", v)] s).2.ent = s.ent := by
  intro e kwargs
  refine ⟨update_loop_id e kwargs, ?_⟩
  intro env co s v
  rw [update_ent, update_loop_id_single]

/-- C5: `update` with a field name not in `keys()` silently drops the
field: the instance is unchanged and (with commits succeeding) no error is
raised, for either value of the commit flag. -/
theorem C5_unknown_field_ignored :
    ∀ (s : St) (f : String) (v : Value) (co : Bool),
      f ∉ s.ent.ty.keys →
      update_loop s.ent [(f, v)] = s.ent ∧
      (update succEnv co [(f, v)] s).1 = .ok s.ent ∧
      (update succEnv co [(f, v)] s).2.ent = s.ent := by
  intro s f v co h
  have h1 := update_loop_unknown s.ent f v h
  refine ⟨h1, ?_, by rw [update_ent, h1]⟩
  cases co with
  | false => simp [update, h1]
  | true => simp [update, save, runCommit, sessioncommit, succEnv, h1]

/-- C5 witness: updating a concrete instance with the unknown field
`bogus` leaves it unchanged and returns it without error. -/
theorem C5_witness :
    update_loop st0.ent [("bogus", .vInt 5)] = st0.ent ∧
    (update succEnv true [("bogus", .vInt 5)] st0).1 = .ok st0.ent ∧
    (update succEnv true [("bogus", .vInt 5)] st0).2.ent = st0.ent :=
  C5_unknown_field_ignored st0 "bogus" (.vInt 5) true (by decide)

/-- C6: relationship traversal is bounded to exactly one hop.  On the
concrete chain A → B → C, `prepare` on A with relations included contains
B's scalar fields but no key of C (`c_secret`) and no key for C itself
(`c`), because the recursive calls pass `rel=False`; and in general every
mapping `prepare` returns has nesting depth at most two (root keys, one
hop of related mappings whose values are all scalars). -/
theorem C6_one_hop_depth :
    prepare entA .tru true none =
      .ok (.obj [("id", .scalar (.vInt 1)), ("afield", .scalar (.vInt 10)),
        ("b", .obj [("id", .scalar (.vInt 2)), ("bfield", .scalar (.vInt 20))])],
        ["password", "password"]) ∧
    ∀ (e : Entity) (rel : RelArg) (json : Bool) (exc : Option (List String))
        (m : List (String × PValue)) (l : List String),
      prepare e rel json exc = .ok (.obj m, l) → pdepthObj m ≤ 2 := by
  refine ⟨?_, fun e rel json exc m l hp => prepare_obj_depth e rel json exc m l hp⟩
  simp [prepare, rel_loop, prep_list, columns_loop, column_step, dictGetE,
    dictGet, dictSet, getRelE, render_column, excAfter, entA, entB, entC,
    tyA, tyB, tyC, Entity.ty, Entity.dict, Entity.rels, relIsFls]

/-- C6 witness: the depth bound applied to the concrete A → B → C output. -/
theorem C6_witness :
    pdepthObj [("id", .scalar (.vInt 1)), ("afield", .scalar (.vInt 10)),
      ("b", .obj [("id", .scalar (.vInt 2)), ("bfield", .scalar (.vInt 20))])] ≤ 2 :=
  C6_one_hop_depth.2 entA .tru true none _ _ C6_one_hop_depth.1

/-- C7: the serializer never raises: `prepare` returns a value for every
input; a relationship whose access fails is omitted from the mapping
rather than surfaced; a column absent from the instance dictionary is
skipped without error. -/
theorem C7_serializer_never_raises :
    (∀ (e : Entity) (rel : RelArg) (json : Bool) (exc : Option (List String)),
      ∃ out, prepare e rel json exc = .ok out) ∧
    (∀ (e : Entity) (exc : Option (List String)) (r : String),
      dictGet e.rels r = some .fail → r ∉ e.ty.columns →
      r ∉ prepKeys (prepare e .tru true exc)) ∧
    (∀ (e : Entity) (exc : Option (List String)) (c : String),
      dictGet e.dict c = none →
      c ∉ prepKeys (prepare e .fls true exc)) := by
  refine ⟨prepare_ok, ?_, ?_⟩
  · intro e exc r hfail hcol hmem
    obtain ⟨resp, hresp⟩ := columns_loop_isOk
      (e.ty.columns.filter (fun c => decide (c ∉ excAfter exc))) e.dict []
    by_cases hrel : e.ty.relationships = []
    · rw [prepare_relempty_eq e .tru exc hrel, hresp] at hmem
      simp only [prepKeys] at hmem
      rcases columns_loop_keys _ _ _ _ hresp r hmem with h | h
      · cases h
      · exact hcol (List.mem_filter.mp h).1
    · rw [prepare_tru_eq e exc hrel, hresp] at hmem
      rcases hl : rel_loop e e.ty.relationships resp (excAfter exc)
        with ⟨resp2, exc2⟩
      simp only [hl, prepKeys] at hmem
      have hkeys := rel_loop_keys e e.ty.relationships resp (excAfter exc) r
        (by rw [hl]; exact hmem)
      rcases hkeys with h | ⟨-, x, hx⟩
      · rcases columns_loop_keys _ _ _ _ hresp r h with h2 | h2
        · cases h2
        · exact hcol (List.mem_filter.mp h2).1
      · rw [getRelE_fail e r hfail] at hx
        cases hx
  · intro e exc c hc hmem
    obtain ⟨resp, hresp⟩ := columns_loop_isOk
      (e.ty.columns.filter (fun c => decide (c ∉ excAfter exc))) e.dict []
    rw [prepare_fls_eq, hresp] at hmem
    simp only [prepKeys] at hmem
    exact columns_loop_absent _ _ _ _ c hc (by simp [dictKeys]) hresp hmem

/-- C7 witness: on a concrete instance whose relationship `r` fails to
resolve and whose column `ghost` is absent from the instance dictionary,
`prepare` still returns and both keys are omitted. -/
theorem C7_witness :
    (∃ out, prepare entW .tru true none = .ok out) ∧
    "r" ∉ prepKeys (prepare entW .tru true none) ∧
    "ghost" ∉ prepKeys (prepare entW .fls true none) :=
  ⟨C7_serializer_never_raises.1 entW .tru true none,
    C7_serializer_never_raises.2.1 entW none "r" rfl (by decide),
    C7_serializer_never_raises.2.2 entW none "ghost" rfl⟩

/-- C8: `sdelete` sets `active` to `'D'` and `restore` sets it to `'Y'`
(whatever the flag and commit outcomes); each invokes the commit operation
immediately, regardless of its commit flag; with commits succeeding, the
session trace additionally shows a `save` (an `add` followed by a second
commit) exactly when the flag is true, and the mutated instance (`self`)
is returned. -/
theorem C8_sdelete_restore :
    ∀ (env : Nat → CommitOutcome) (co : Bool) (s : St),
      dictGet ((sdelete env co s).2.ent).dict "active" = some (.vStr "D") ∧
      dictGet ((restore env co s).2.ent).dict "active" = some (.vStr "Y") ∧
      (∃ rest, (sdelete env co s).2.ops = s.ops ++ [.commitOp] ++ rest) ∧
      (∃ rest, (restore env co s).2.ops = s.ops ++ [.commitOp] ++ rest) ∧
      (sdelete succEnv co s).2.ops =
        s.ops ++ [.commitOp] ++ (if co then [.addOp, .commitOp] else []) ∧
      (sdelete succEnv co s).1 = .ok (s.ent.setAttr "active" (.vStr "D")) ∧
      (restore succEnv co s).2.ops =
        s.ops ++ [.commitOp] ++ (if co then [.addOp, .commitOp] else []) ∧
      (restore succEnv co s).1 = .ok (s.ent.setAttr "active" (.vStr "Y")) := by
  intro env co s
  refine ⟨?_, ?_, sdelete_ops_prefix env co s, restore_ops_prefix env co s,
    ?_, ?_, ?_, ?_⟩
  · rw [sdelete_ent]
    exact dictGet_dictSet_self _ _ _
  · rw [restore_ent]
    exact dictGet_dictSet_self _ _ _
  · cases co <;> simp [sdelete, save, runCommit, sessioncommit, succEnv]
  · cases co <;> simp [sdelete, save, runCommit, sessioncommit, succEnv]
  · cases co <;> simp [restore, save, runCommit, sessioncommit, succEnv]
  · cases co <;> simp [restore, save, runCommit, sessioncommit, succEnv]

/-- C9 (counterexample): `getkey` on a name that is not a declared column
fails with the generic attribute-lookup error, not with the dedicated
`'Invalid input field'` validation error the claim names. -/
theorem C9_counterexample :
    getkey cls9 (.str "bogus") = .error .attributeError ∧
    getkey cls9 (.str "bogus") ≠ .error (.valueError "Invalid input field") := by
  refine ⟨rfl, ?_⟩
  simp [getkey, getattrE, cls9, dictGet]

/-- C9 (amended): `getkey` resolves a plain name or an attribute-reference
object to the class's queryable handle when one is declared; an unknown
name fails with `AttributeError` (the generic attribute-lookup failure);
the dedicated `'Invalid input field'` error is raised by the separate
`check_inputs` helper, for names resolved on a base class only. -/
theorem C9_getkey_behaviour :
    ∀ (cls : EntityType) (s : String) (a : InstrAttr) (h : InstrAttr) (v : Value),
      (dictGet (cls.attrs ++ cls.baseAttrs) s = none →
        getkey cls (.str s) = .error .attributeError) ∧
      (dictGet (cls.attrs ++ cls.baseAttrs) s = some h →
        getkey cls (.str s) = .ok h) ∧
      (dictGet (cls.attrs ++ cls.baseAttrs) a.key = none →
        getkey cls (.attr a) = .error .attributeError) ∧
      (dictGet (cls.attrs ++ cls.baseAttrs) a.key = some h →
        getkey cls (.attr a) = .ok h) ∧
      (dictGet (cls.attrs ++ cls.baseAttrs) s = some h →
        dictGet cls.attrs h.key = none →
        check_inputs cls (.str s) v = .error (.valueError "Invalid input field")) := by
  intro cls s a h v
  refine ⟨?_, ?_, ?_, ?_, ?_⟩
  · intro hd
    simp [getkey, getattrE, hd]
  · intro hd
    simp [getkey, getattrE, hd]
  · intro hd
    simp [getkey, getattrE, hd]
  · intro hd
    simp [getkey, getattrE, hd]
  · intro hd hk
    simp [check_inputs, getattrE, hd, hk]

/-- C9 witness: on the concrete `Widget` class, unknown names give
`AttributeError`, declared names and handles resolve, and `check_inputs`
raises the `'Invalid input field'` error for the inherited `active`
attribute. -/
theorem C9_witness :
    getkey cls9 (.str "bogus") ≠ .error (.valueError "Invalid input field") ∧
    getkey cls9 (.str "name") = .ok (InstrAttr.mk "name" "name") ∧
    getkey cls9 (.attr (InstrAttr.mk "name" "name")) =
      .ok (InstrAttr.mk "name" "name") ∧
    check_inputs cls9 (.str "active") (.vInt 0) =
      .error (.valueError "Invalid input field") := by
  refine ⟨?_, ?_, ?_, ?_⟩
  · rw [(C9_getkey_behaviour cls9 "bogus" (InstrAttr.mk "name" "name")
      (InstrAttr.mk "name" "name") (.vInt 0)).1 rfl]
    simp
  · exact (C9_getkey_behaviour cls9 "name" (InstrAttr.mk "name" "name")
      (InstrAttr.mk "name" "name") (.vInt 0)).2.1 rfl
  · exact (C9_getkey_behaviour cls9 "name" (InstrAttr.mk "name" "name")
      (InstrAttr.mk "name" "name") (.vInt 0)).2.2.2.1 rfl
  · exact (C9_getkey_behaviour cls9 "active" (InstrAttr.mk "name" "name")
      (InstrAttr.mk "active" "active") (.vInt 0)).2.2.2.2 rfl rfl

/-- C10: `prepare` mutates the caller-supplied exclusion list in place,
appending `'password'` — also on the `json=False` path that returns the
instance itself — so reusing the same list accumulates duplicate
`'password'` entries. -/
theorem C10_exc_list_mutated :
    ∀ (e : Entity) (rel : RelArg) (exc0 : List String),
      prepare e rel false (some exc0) = .ok (.inst e, exc0 ++ ["password"]) ∧
      excOut (prepare e .fls true (some exc0)) = exc0 ++ ["password"] ∧
      excOut (prepare e rel false (some (exc0 ++ ["password"]))) =
        exc0 ++ ["password", "password"] := by
  intro e rel exc0
  refine ⟨prepare_json_false e rel (some exc0), ?_, ?_⟩
  · obtain ⟨m, hp, -⟩ := prepare_fls_shape e (some exc0)
    rw [hp]
    simp [excOut, excAfter]
  · rw [prepare_json_false]
    simp [excOut, excAfter]
